import Mathlib

/-!
Verification of the AmpyFin strategy-ensemble core: decision fusion,
tournament ranking, the rank-to-coefficient schedule, the per-strategy
trade-execution state machine, scoring on completed sells, and the
capital-constrained buy-order scheduler.  Each definition is a shallow
embedding of the corresponding Python function; money and weights are
modelled as exact rationals, share quantities as integers, and fallible
code returns `Except`.
-/

namespace AmpyFin

/-! ### Decision fusion
`weighted_majority_decision_and_median_quantity`
(src/utilities/common_utils.py lines 315-374; the copy in
src/trading_client.py lines 49-81 is textually identical). -/

/-- Python `sorted` on a list of rationals (ascending). -/
def pySorted (l : List ℚ) : List ℚ := l.insertionSort (· ≤ ·)

/-- Python `statistics.median`: middle element of the sorted list for odd
length, mean of the two middle elements for even length.  The sources only
call it on non-empty lists (`median(xs) if xs else 0`). -/
def median (l : List ℚ) : ℚ :=
  let s := pySorted l
  let n := s.length
  if n % 2 = 1 then s.getD (n / 2) 0
  else (s.getD (n / 2 - 1) 0 + s.getD (n / 2) 0) / 2

/-- Source constant `buy_decisions = ["buy", "strong buy"]`. -/
def buy_decisions : List String := ["buy", "strong buy"]

/-- Source constant `sell_decisions = ["sell", "strong sell"]`. -/
def sell_decisions : List String := ["sell", "strong sell"]

/-- Accumulator of the processing loop: the two raw-quantity buckets and
the three weight sums. -/
structure FuseAcc where
  buyQs : List ℚ
  sellQs : List ℚ
  buyW : ℚ
  sellW : ℚ
  holdW : ℚ
deriving DecidableEq

/-- One iteration of the `for decision, quantity, weight in ...` loop. -/
def fuseStep (acc : FuseAcc) (d : String × ℚ × ℚ) : FuseAcc :=
  if d.1 ∈ buy_decisions then
    { acc with buyQs := acc.buyQs ++ [d.2.1], buyW := acc.buyW + d.2.2 }
  else if d.1 ∈ sell_decisions then
    { acc with sellQs := acc.sellQs ++ [d.2.1], sellW := acc.sellW + d.2.2 }
  else if d.1 = "hold" then
    { acc with holdW := acc.holdW + d.2.2 }
  else acc

/-- Embedding of `weighted_majority_decision_and_median_quantity`: accumulate the
buckets, then return the strictly-heaviest bucket with the unweighted
median of its raw quantities (0 for an empty bucket), falling through to
`("hold", 0, ...)` otherwise. -/
def weighted_majority_decision_and_median_quantity
    (l : List (String × ℚ × ℚ)) : String × ℚ × ℚ × ℚ × ℚ :=
  let acc := l.foldl fuseStep ⟨[], [], 0, 0, 0⟩
  if acc.buyW > acc.sellW ∧ acc.buyW > acc.holdW then
    ("buy", if acc.buyQs = [] then 0 else median acc.buyQs,
      acc.buyW, acc.sellW, acc.holdW)
  else if acc.sellW > acc.buyW ∧ acc.sellW > acc.holdW then
    ("sell", if acc.sellQs = [] then 0 else median acc.sellQs,
      acc.buyW, acc.sellW, acc.holdW)
  else
    ("hold", 0, acc.buyW, acc.sellW, acc.holdW)

/-! Specification-side bucket descriptions, written independently of the
accumulating loop (filter + map + sum), used to state claim C1. -/

/-- Raw quantities of the votes whose decision lies in `bucket`. -/
def bucketQs (bucket : List String) (l : List (String × ℚ × ℚ)) : List ℚ :=
  (l.filter (fun d => d.1 ∈ bucket)).map (fun d => d.2.1)

/-- Summed weight of the votes whose decision lies in `bucket`. -/
def bucketW (bucket : List String) (l : List (String × ℚ × ℚ)) : ℚ :=
  ((l.filter (fun d => d.1 ∈ bucket)).map (fun d => d.2.2)).sum

/-- Summed weight of the `"hold"` votes. -/
def holdWsum (l : List (String × ℚ × ℚ)) : ℚ :=
  ((l.filter (fun d => d.1 = "hold")).map (fun d => d.2.2)).sum

theorem fuseStep_foldl (l : List (String × ℚ × ℚ)) (acc : FuseAcc) :
    l.foldl fuseStep acc =
      ⟨acc.buyQs ++ bucketQs buy_decisions l,
       acc.sellQs ++ bucketQs sell_decisions l,
       acc.buyW + bucketW buy_decisions l,
       acc.sellW + bucketW sell_decisions l,
       acc.holdW + holdWsum l⟩ := by
  induction l generalizing acc with
  | nil => simp [bucketQs, bucketW, holdWsum]
  | cons d l ih =>
    rcases d with ⟨dec, q, w⟩
    by_cases hb : dec ∈ buy_decisions
    · have hd : dec = "buy" ∨ dec = "strong buy" := by simpa [buy_decisions] using hb
      have hs : dec ∉ sell_decisions := by rcases hd with rfl | rfl <;> decide
      have hh : ¬ dec = "hold" := by rcases hd with rfl | rfl <;> decide
      simp [List.foldl_cons, fuseStep, hb, hs, hh, ih, bucketQs, bucketW,
        holdWsum, add_assoc]
    · by_cases hs : dec ∈ sell_decisions
      · have hd : dec = "sell" ∨ dec = "strong sell" := by
          simpa [sell_decisions] using hs
        have hh : ¬ dec = "hold" := by rcases hd with rfl | rfl <;> decide
        simp [List.foldl_cons, fuseStep, hb, hs, hh, ih, bucketQs, bucketW,
          holdWsum, add_assoc]
      · by_cases hh : dec = "hold"
        · subst hh
          have hb' : ("hold" : String) ∉ buy_decisions := by decide
          have hs' : ("hold" : String) ∉ sell_decisions := by decide
          simp [List.foldl_cons, fuseStep, hb', hs', ih, bucketQs, bucketW,
            holdWsum, add_assoc]
        · simp [List.foldl_cons, fuseStep, hb, hs, hh, ih, bucketQs, bucketW,
            holdWsum]

/-- C1.  The fusion function returns the bucket whose summed weight is
strictly larger than both other buckets' sums, resolves every remaining
case (ties, the empty list, the all-zero case) to `hold` with quantity 0,
and returns the unweighted median of the winning bucket's raw quantities
(0 if that bucket is empty) together with the three weight sums; in
particular `fuse [("buy",10,5),("sell",3,2)] = ("buy", 10, 5, 2, 0)`. -/
theorem weighted_majority_spec :
    (∀ l : List (String × ℚ × ℚ),
      (∀ d ∈ l, d.1 ∈ ["buy", "strong buy", "sell", "strong sell", "hold"]) →
      (bucketW buy_decisions l > bucketW sell_decisions l ∧
          bucketW buy_decisions l > holdWsum l →
        weighted_majority_decision_and_median_quantity l =
          ("buy",
           if bucketQs buy_decisions l = [] then 0
             else median (bucketQs buy_decisions l),
           bucketW buy_decisions l, bucketW sell_decisions l, holdWsum l)) ∧
      (bucketW sell_decisions l > bucketW buy_decisions l ∧
          bucketW sell_decisions l > holdWsum l →
        weighted_majority_decision_and_median_quantity l =
          ("sell",
           if bucketQs sell_decisions l = [] then 0
             else median (bucketQs sell_decisions l),
           bucketW buy_decisions l, bucketW sell_decisions l, holdWsum l)) ∧
      (¬ (bucketW buy_decisions l > bucketW sell_decisions l ∧
            bucketW buy_decisions l > holdWsum l) →
        ¬ (bucketW sell_decisions l > bucketW buy_decisions l ∧
            bucketW sell_decisions l > holdWsum l) →
        weighted_majority_decision_and_median_quantity l =
          ("hold", 0,
           bucketW buy_decisions l, bucketW sell_decisions l, holdWsum l))) ∧
    weighted_majority_decision_and_median_quantity [("buy", 10, 5), ("sell", 3, 2)] =
      ("buy", 10, 5, 2, 0) := by
  constructor
  · intro l _
    have hfold := fuseStep_foldl l ⟨[], [], 0, 0, 0⟩
    refine ⟨?_, ?_, ?_⟩
    · intro hmax
      simp [weighted_majority_decision_and_median_quantity, hfold, hmax.1, hmax.2]
    · intro hmax
      have hnb : ¬ (bucketW buy_decisions l > bucketW sell_decisions l ∧
          bucketW buy_decisions l > holdWsum l) := by
        intro h
        exact absurd hmax.1 (not_lt.mpr (le_of_lt h.1))
      simp [weighted_majority_decision_and_median_quantity, hfold, hnb, hmax.1, hmax.2]
    · intro hnb hns
      simp [weighted_majority_decision_and_median_quantity, hfold, hnb, hns]
  · norm_num +decide [weighted_majority_decision_and_median_quantity, fuseStep,
      buy_decisions, sell_decisions, median, pySorted, List.insertionSort,
      List.orderedInsert]

/-- Witness for C1: the theorem applied to the concrete spec example. -/
theorem weighted_majority_spec_witness :
    weighted_majority_decision_and_median_quantity [("buy", 10, 5), ("sell", 3, 2)] =
      ("buy", 10, 5, 2, 0) := by
  have h := (weighted_majority_spec.1 [("buy", 10, 5), ("sell", 3, 2)]
    (by decide)).1
    (by norm_num +decide [bucketW, holdWsum, buy_decisions, sell_decisions])
  rw [h]
  norm_num +decide [bucketW, bucketQs, holdWsum, buy_decisions, sell_decisions,
    median, pySorted, List.insertionSort, List.orderedInsert]

/-- C10.  On an input whose winning bucket holds an even number of
quantities (two buy votes with quantities 1 and 2 under dominant buy
weight), the fusion function returns the mean of the two middle values,
3/2, which is not equal to any integer. -/
theorem weighted_majority_noninteger_quantity :
    (weighted_majority_decision_and_median_quantity
        [("buy", 1, 5), ("buy", 2, 5), ("sell", 3, 2)]).2.1 = 3 / 2 ∧
    ∀ n : ℤ, (n : ℚ) ≠ (weighted_majority_decision_and_median_quantity
        [("buy", 1, 5), ("buy", 2, 5), ("sell", 3, 2)]).2.1 := by
  have h : (weighted_majority_decision_and_median_quantity
      [("buy", 1, 5), ("buy", 2, 5), ("sell", 3, 2)]).2.1 = 3 / 2 := by
    norm_num +decide [weighted_majority_decision_and_median_quantity, fuseStep,
      buy_decisions, sell_decisions, median, pySorted, List.insertionSort,
      List.orderedInsert]
  refine ⟨h, ?_⟩
  intro n hn
  rw [h] at hn
  have h2 : ((2 * n : ℤ) : ℚ) = 3 := by push_cast; linarith
  have h3 : (2 * n : ℤ) = 3 := by exact_mod_cast h2
  omega

/-! ### Tournament / rank engine
`update_strategy_ranks` (src/TradeSim/testing.py lines 167-211); the Mongo
variant `update_ranks` (src/utilities/ranking_trading_utils.py lines
421-488) pushes the same `(score, successful−failed, cash, name)` tuples
into the same min-heap.  A strategy's tournament inputs are gathered into
one record. -/

structure StratPerf where
  name : String
  points : ℚ
  portfolio_value : ℚ
  amount_cash : ℚ
  successful_trades : ℤ
  failed_trades : ℤ
deriving DecidableEq

/-- The score used for ranking: `points*2 + portfolio_value` for strictly
positive points, plain `portfolio_value` otherwise. -/
def score (s : StratPerf) : ℚ :=
  if s.points > 0 then s.points * 2 + s.portfolio_value else s.portfolio_value

/-- The full Python heap tuple `(score, successful_trades - failed_trades,
amount_cash, name)`, with Python's lexicographic tuple comparison. -/
def scoreKey (s : StratPerf) : Lex (ℚ × Lex (ℤ × Lex (ℚ × String))) :=
  toLex (score s, toLex (s.successful_trades - s.failed_trades,
    toLex (s.amount_cash, s.name)))

def keyLe (s t : StratPerf) : Prop := scoreKey s ≤ scoreKey t

def keyLt (s t : StratPerf) : Prop := scoreKey s < scoreKey t

instance : DecidableRel keyLe := fun s t =>
  inferInstanceAs (Decidable (scoreKey s ≤ scoreKey t))

instance : IsTotal StratPerf keyLe := ⟨fun s t => le_total (scoreKey s) (scoreKey t)⟩

instance : IsTrans StratPerf keyLe := ⟨fun _ _ _ h h' => le_trans h h'⟩

/-- Since `heapq` pops entries in ascending order of the pushed tuples, the
pop sequence of the rank loop is the key-sorted strategy list. -/
def rankedOrder (l : List StratPerf) : List StratPerf := l.insertionSort keyLe

/-- The `rank = 1; while q: ... rank += 1` numbering loop: consecutive
ranks starting at `n` down the pop sequence. -/
def numberFrom : ℕ → List StratPerf → List (String × ℕ)
  | _, [] => []
  | n, s :: ss => (s.name, n) :: numberFrom (n + 1) ss

/-- Embedding of `update_strategy_ranks`: rank 1 to the smallest heap tuple, rank `N`
to the largest. -/
def update_strategy_ranks (l : List StratPerf) : List (String × ℕ) :=
  numberFrom 1 (rankedOrder l)

theorem numberFrom_map_snd (ss : List StratPerf) (n : ℕ) :
    (numberFrom n ss).map Prod.snd = List.range' n ss.length := by
  induction ss generalizing n with
  | nil => simp [numberFrom]
  | cons s ss ih => simp [numberFrom, List.range'_succ, ih]

theorem numberFrom_map_fst (ss : List StratPerf) (n : ℕ) :
    (numberFrom n ss).map Prod.fst = ss.map StratPerf.name := by
  induction ss generalizing n with
  | nil => simp [numberFrom]
  | cons s ss ih => simp [numberFrom, ih]

theorem numberFrom_get_mem (ss : List StratPerf) (n : ℕ) :
    ∀ i (hi : i < ss.length), ((ss.get ⟨i, hi⟩).name, n + i) ∈ numberFrom n ss := by
  induction ss generalizing n with
  | nil => intro i hi; simp at hi
  | cons s ss ih =>
    intro i hi
    cases i with
    | zero => simp [numberFrom]
    | succ j =>
      have hj : j < ss.length := by simpa using hi
      have := ih (n + 1) j hj
      simp only [numberFrom, List.mem_cons]
      right
      have harith : n + 1 + j = n + (j + 1) := by omega
      rw [← harith]
      simpa using this

theorem scoreKey_eq_name (s t : StratPerf) (h : scoreKey s = scoreKey t) :
    s.name = t.name := by
  unfold scoreKey at h
  have h1 := toLex_inj.mp h
  have h2 := toLex_inj.mp (congrArg Prod.snd h1)
  have h3 := toLex_inj.mp (congrArg Prod.snd h2)
  exact congrArg Prod.snd h3

/-- C2.  On any strategy set with pairwise-distinct names, the rank engine
assigns ranks 1..N bijectively (each rank exactly once, each strategy
exactly once), the pop sequence is strictly ascending in the lexicographic
key `(score, successful−failed, cash, name)` with
`score = points*2 + portfolio_value` iff `points > 0`, and the strategy at
position `i` of that ascending sequence receives rank `i + 1` (so rank 1
is the smallest tuple and rank N the largest). -/
theorem update_strategy_ranks_spec (l : List StratPerf)
    (hnd : (l.map StratPerf.name).Nodup) :
    ((update_strategy_ranks l).map Prod.snd = List.range' 1 l.length) ∧
    ((update_strategy_ranks l).map Prod.fst).Perm (l.map StratPerf.name) ∧
    List.Pairwise keyLt (rankedOrder l) ∧
    ∀ i (hi : i < (rankedOrder l).length),
      (((rankedOrder l).get ⟨i, hi⟩).name, i + 1) ∈ update_strategy_ranks l := by
  have hperm : (rankedOrder l).Perm l := List.perm_insertionSort keyLe l
  have hlen : (rankedOrder l).length = l.length := hperm.length_eq
  refine ⟨?_, ?_, ?_, ?_⟩
  · rw [update_strategy_ranks, numberFrom_map_snd, hlen]
  · rw [update_strategy_ranks, numberFrom_map_fst]
    exact hperm.map StratPerf.name
  · have hsorted : List.Pairwise keyLe (rankedOrder l) :=
      List.sorted_insertionSort keyLe l
    have hnd' : ((rankedOrder l).map StratPerf.name).Nodup :=
      ((hperm.map StratPerf.name).nodup_iff).mpr hnd
    have hpw : List.Pairwise (fun a b : StratPerf => a.name ≠ b.name)
        (rankedOrder l) := by
      rw [List.Nodup, List.pairwise_map] at hnd'
      exact hnd'
    refine (hsorted.and hpw).imp ?_
    intro a b hab
    exact lt_of_le_of_ne hab.1 (fun he => hab.2 (scoreKey_eq_name a b he))
  · intro i hi
    have := numberFrom_get_mem (rankedOrder l) 1 i hi
    simpa [update_strategy_ranks, Nat.add_comm] using this

/-- Witness for C2 at a concrete two-strategy input. -/
theorem update_strategy_ranks_spec_witness :
    ((update_strategy_ranks
        [⟨"alpha", 1, 100, 40, 3, 1⟩, ⟨"beta", 0, 200, 50, 2, 0⟩]).map Prod.snd =
      List.range' 1 2) := by
  have h := (update_strategy_ranks_spec
    [⟨"alpha", 1, 100, 40, 3, 1⟩, ⟨"beta", 0, 200, 50, 2, 0⟩] (by decide)).1
  simpa using h

/-! ### Rank-to-coefficient schedule
`insert_rank_to_coefficient` (src/setup.py lines 148-168):
`rate = (e**e) / (e**2) - 1`, `coefficient = rate ** (2 * i)`. -/

/-- Source expression `rate = (e**e) / (e**2) - 1` with `e = math.e`. -/
noncomputable def rate : ℝ :=
  (Real.exp 1) ^ (Real.exp 1) / (Real.exp 1) ^ (2 : ℕ) - 1

/-- The coefficient stored for rank `i`: `rate ** (2 * i)`. -/
noncomputable def coefficient (i : ℕ) : ℝ := rate ^ (2 * i)

theorem rate_eq : rate = Real.exp (Real.exp 1 - 2) - 1 := by
  rw [rate, Real.exp_one_rpow, Real.exp_one_pow, ← Real.exp_sub]
  norm_num

theorem one_lt_rate : 1 < rate := by
  rw [rate_eq]
  have hlog : Real.log 2 < Real.exp 1 - 2 := by
    have h1 : Real.log 2 < 0.6931471808 := Real.log_two_lt_d9
    have h2 : (2.7182818283 : ℝ) < Real.exp 1 := Real.exp_one_gt_d9
    nlinarith
  have h2 : (2 : ℝ) < Real.exp (Real.exp 1 - 2) :=
    (Real.log_lt_iff_lt_exp (by norm_num)).mp hlog
  linarith

/-- C3.  Since `rate > 1`, the precomputed rank-to-coefficient map
`coefficient i = rate^(2i)` is strictly increasing:
`coefficient (i+1) > coefficient i` for every rank `i`. -/
theorem coefficient_strictMono :
    1 < rate ∧ ∀ i : ℕ, coefficient i < coefficient (i + 1) := by
  refine ⟨one_lt_rate, fun i => ?_⟩
  unfold coefficient
  exact pow_lt_pow_right₀ one_lt_rate (by omega)

/-! ### Per-strategy ledger state and trade execution
Constants from src/control.py; `execute_trade` / `update_points_and_trades`
from src/utilities/common_utils.py lines 410-556; `simulate_trade` from
src/TradeSim/ranking.py lines 96-260 (the copy in src/ranking_client.py
lines 113-250 performs the same updates). -/

def train_rank_liquidity_limit : ℚ := 15000

def train_rank_asset_limit : ℚ := 3 / 10

def rank_liquidity_limit : ℚ := 15000

def rank_asset_limit : ℚ := 1 / 10

def profit_price_change_ratio_d1 : ℚ := 105 / 100

def profit_price_change_ratio_d2 : ℚ := 110 / 100

def profit_profit_time_d1 : ℚ := 1

def profit_profit_time_d2 : ℚ := 15 / 10

def profit_profit_time_else : ℚ := 12 / 10

def loss_price_change_ratio_d1 : ℚ := 975 / 1000

def loss_price_change_ratio_d2 : ℚ := 95 / 100

def loss_profit_time_d1 : ℚ := 1

def loss_profit_time_d2 : ℚ := 15 / 10

def loss_profit_time_else : ℚ := 2

structure Holding where
  quantity : ℤ
  price : ℚ
deriving DecidableEq

/-- A Python dict keyed by ticker, as an association list. -/
abbrev Holdings := List (String × Holding)

def lookupH : Holdings → String → Option Holding
  | [], _ => none
  | (k, h) :: rest, t => if k = t then some h else lookupH rest t

/-- Python `holdings[ticker] = h` (replace the binding or add it). -/
def setH : Holdings → String → Holding → Holdings
  | [], t, h => [(t, h)]
  | (k, h') :: rest, t, h =>
      if k = t then (k, h) :: rest else (k, h') :: setH rest t h

/-- Python `del holdings[ticker]`. -/
def eraseH (hs : Holdings) (t : String) : Holdings :=
  hs.filter (fun kv => kv.1 != t)

/-- The per-strategy `trading_simulator[strategy_name]` /
`algorithm_holdings` document. -/
structure StratDoc where
  amount_cash : ℚ
  holdings : Holdings
  portfolio_value : ℚ
  total_trades : ℕ
  successful_trades : ℕ
  neutral_trades : ℕ
  failed_trades : ℕ
deriving DecidableEq

/-- Python `holdings.get(ticker, {}).get("quantity", 0)`. -/
def heldQty (doc : StratDoc) (t : String) : ℤ :=
  match lookupH doc.holdings t with
  | some h => h.quantity
  | none => 0

/-- Embedding of `update_points_and_trades` (common_utils, with the `train_*` tier
constants equal to the plain ones above): score the completed sell, then
decrement the holding, deleting it at zero and raising below zero.
A missing ticker key raises a Python `KeyError`. -/
def update_points_and_trades (r : ℚ) (current_price : ℚ) (doc : StratDoc)
    (points : ℚ) (time_delta : ℚ) (ticker : String) (qty : ℤ) :
    Except String (ℚ × StratDoc) :=
  match lookupH doc.holdings ticker with
  | none => .error "KeyError"
  | some h =>
    let scored : StratDoc × ℚ :=
      if current_price > h.price then
        ({ doc with successful_trades := doc.successful_trades + 1 },
          if r < profit_price_change_ratio_d1 then
            points + time_delta * profit_profit_time_d1
          else if r < profit_price_change_ratio_d2 then
            points + time_delta * profit_profit_time_d2
          else points + time_delta * profit_profit_time_else)
      else if current_price = h.price then
        ({ doc with neutral_trades := doc.neutral_trades + 1 }, points)
      else
        ({ doc with failed_trades := doc.failed_trades + 1 },
          if r > loss_price_change_ratio_d1 then
            points - time_delta * loss_profit_time_d1
          else if r > loss_price_change_ratio_d2 then
            points - time_delta * loss_profit_time_d2
          else points - time_delta * loss_profit_time_else)
    let doc' := scored.1
    let points' := scored.2
    let newQty := h.quantity - qty
    if newQty = 0 then
      .ok (points',
        { doc' with
          holdings := eraseH doc'.holdings ticker,
          total_trades := doc'.total_trades + 1 })
    else if newQty < 0 then
      .error "Quantity cannot be negative"
    else
      .ok (points',
        { doc' with
          holdings := setH doc'.holdings ticker { h with quantity := newQty },
          total_trades := doc'.total_trades + 1 })

/-- Embedding of `execute_trade` (common_utils).  The buy guard compares the
*pre-purchase* cash with the liquidity limit and overwrites the entry
price with the latest purchase price; an allowed sell adds the proceeds
and defers to `update_points_and_trades`. -/
def execute_trade (decision : String) (qty : ℤ) (ticker : String)
    (current_price : ℚ) (doc : StratDoc) (points : ℚ) (time_delta : ℚ)
    (portfolio_qty : ℤ) (total_portfolio_value : ℚ) :
    Except String (StratDoc × ℚ) :=
  if decision = "buy" ∧ doc.amount_cash > train_rank_liquidity_limit ∧ qty > 0 ∧
      (((portfolio_qty + qty : ℤ) : ℚ) * current_price) / total_portfolio_value
        < train_rank_asset_limit then
    let doc₁ := { doc with amount_cash := doc.amount_cash - (qty : ℚ) * current_price }
    let doc₂ :=
      match lookupH doc₁.holdings ticker with
      | some h =>
        { doc₁ with
          holdings := setH doc₁.holdings ticker ⟨h.quantity + qty, current_price⟩ }
      | none =>
        { doc₁ with
          holdings := setH doc₁.holdings ticker ⟨qty, current_price⟩ }
    .ok ({ doc₂ with total_trades := doc₂.total_trades + 1 }, points)
  else if decision = "sell" ∧ heldQty doc ticker ≥ qty then
    let doc₁ := { doc with amount_cash := doc.amount_cash + (qty : ℚ) * current_price }
    match lookupH doc₁.holdings ticker with
    | none => .error "KeyError"
    | some h =>
      match update_points_and_trades (current_price / h.price) current_price
          doc₁ points time_delta ticker qty with
      | .error e => .error e
      | .ok (points', doc') => .ok (doc', points')
  else
    .ok (doc, points)

/-- Result of one `simulate_trade` call: the persisted strategy document,
the amount `$inc`-ed into the strategy's points tally, and the uncaught
Python exception if the call crashed after persisting. -/
structure TradeOutcome where
  doc : StratDoc
  pointsDelta : ℚ
  err : Option String
deriving DecidableEq

/-- Embedding of `simulate_trade` (TradeSim/ranking.py): the buy guard uses the
*post-purchase* cash, a buy on a held ticker weighted-averages the entry
price, and a sell is clamped to `min(quantity, current_qty)`.  All Mongo
writes happen before the trailing
`if holdings_doc[ticker]["quantity"] == 0` re-check, which raises
`KeyError` when the sell emptied (and hence already deleted) the holding;
the persisted updates stand. -/
def simulate_trade (action : String) (quantity : ℤ) (ticker : String)
    (current_price : ℚ) (time_delta : ℚ) (doc : StratDoc) : TradeOutcome :=
  let portfolio_qty := heldQty doc ticker
  if action = "buy" ∧
      doc.amount_cash - (quantity : ℚ) * current_price > rank_liquidity_limit ∧
      quantity > 0 ∧
      (((portfolio_qty + quantity : ℤ) : ℚ) * current_price) / doc.portfolio_value
        < rank_asset_limit then
    let entry : Holding :=
      match lookupH doc.holdings ticker with
      | some h =>
          ⟨h.quantity + quantity,
           (h.price * (h.quantity : ℚ) + current_price * (quantity : ℚ)) /
             ((h.quantity + quantity : ℤ) : ℚ)⟩
      | none => ⟨quantity, current_price⟩
    { doc := { doc with
        holdings := setH doc.holdings ticker entry,
        amount_cash := doc.amount_cash - (quantity : ℚ) * current_price,
        total_trades := doc.total_trades + 1 },
      pointsDelta := 0, err := none }
  else
    match lookupH doc.holdings ticker with
    | some h =>
      if action = "sell" ∧ h.quantity > 0 then
        let current_qty := h.quantity
        let sell_qty := min quantity current_qty
        let remaining := current_qty - sell_qty
        let holdings₁ := setH doc.holdings ticker { h with quantity := remaining }
        let r := current_price / h.price
        let counters : StratDoc :=
          if current_price > h.price then
            { doc with successful_trades := doc.successful_trades + 1 }
          else if h.price = current_price then
            { doc with neutral_trades := doc.neutral_trades + 1 }
          else
            { doc with failed_trades := doc.failed_trades + 1 }
        let pts : ℚ :=
          if current_price > h.price then
            (if r < profit_price_change_ratio_d1 then
              time_delta * profit_profit_time_d1
            else if r < profit_price_change_ratio_d2 then
              time_delta * profit_profit_time_d2
            else time_delta * profit_profit_time_else)
          else
            (if r > loss_price_change_ratio_d1 then
              -time_delta * loss_profit_time_d1
            else if r > loss_price_change_ratio_d2 then
              -time_delta * loss_profit_time_d2
            else -time_delta * loss_profit_time_else)
        let holdings₂ := if remaining = 0 then eraseH holdings₁ ticker else holdings₁
        { doc := { counters with
            holdings := holdings₂,
            amount_cash := doc.amount_cash + (sell_qty : ℚ) * current_price,
            total_trades := doc.total_trades + 1 },
          pointsDelta := pts,
          err := if remaining = 0 then some "KeyError" else none }
      else { doc := doc, pointsDelta := 0, err := none }
    | none => { doc := doc, pointsDelta := 0, err := none }

theorem lookupH_setH_self (hs : Holdings) (t : String) (h : Holding) :
    lookupH (setH hs t h) t = some h := by
  induction hs with
  | nil => simp [setH, lookupH]
  | cons kv rest ih =>
    rcases kv with ⟨k, h'⟩
    by_cases hk : k = t
    · simp [setH, lookupH, hk]
    · simp [setH, lookupH, hk, ih]

theorem lookupH_eraseH_self (hs : Holdings) (t : String) :
    lookupH (eraseH hs t) t = none := by
  induction hs with
  | nil => simp [eraseH, lookupH]
  | cons kv rest ih =>
    rcases kv with ⟨k, h'⟩
    by_cases hk : k = t
    · simpa [eraseH, hk] using ih
    · simpa [eraseH, lookupH, hk] using ih

/-- A buy attempt against a ledger `doc` counts as executed when the
returned document's trade counter advanced. -/
def cuBuyExecuted (doc : StratDoc) (res : Except String (StratDoc × ℚ)) : Prop :=
  ∃ out, res = .ok out ∧ out.1.total_trades = doc.total_trades + 1

/-- C4 counterexample: with `liquidityLimit = 15000`, a buy that brings
cash down to exactly 15000 (cash 20000, cost 5000) is *executed* by
`execute_trade`, because its guard compares the pre-purchase cash with the
limit; the claim says such a buy is rejected. -/
theorem execute_trade_precash_counterexample :
    (20000 : ℚ) - (1 : ℤ) * 5000 = train_rank_liquidity_limit ∧
    execute_trade "buy" 1 "AAPL" 5000 ⟨20000, [], 50000, 0, 0, 0, 0⟩ 0 1 0 50000 =
      .ok (⟨15000, [("AAPL", ⟨1, 5000⟩)], 50000, 1, 0, 0, 0⟩, 0) := by
  constructor
  · norm_num [train_rank_liquidity_limit]
  · norm_num +decide [execute_trade, lookupH, setH, heldQty,
      train_rank_liquidity_limit, train_rank_asset_limit]

/-- C4 (amended).  In the tournament `simulate_trade` flow the buy guard
is exactly `quantity > 0`, post-purchase cash strictly above the liquidity
limit, and strict asset-concentration, with the 15000/15001 boundary as
claimed; in `execute_trade` the liquidity condition is instead the strict
comparison of the *pre-purchase* cash with the limit. -/
theorem simulate_trade_buy_skipped (doc : StratDoc) (q : ℤ) (t : String)
    (p td : ℚ)
    (hg : ¬ (doc.amount_cash - (q : ℚ) * p > rank_liquidity_limit ∧ q > 0 ∧
      (((heldQty doc t + q : ℤ) : ℚ) * p) / doc.portfolio_value
        < rank_asset_limit)) :
    simulate_trade "buy" q t p td doc = ⟨doc, 0, none⟩ := by
  simp only [simulate_trade]
  rw [if_neg (fun hc => hg ⟨hc.2.1, hc.2.2.1, hc.2.2.2⟩)]
  cases hlk : lookupH doc.holdings t with
  | none => simp [hlk]
  | some h =>
    simp only [hlk]
    rw [if_neg (fun hc => absurd hc.1 (by decide))]

theorem simulate_trade_buy_total (doc : StratDoc) (q : ℤ) (t : String)
    (p td : ℚ)
    (hg : doc.amount_cash - (q : ℚ) * p > rank_liquidity_limit ∧ q > 0 ∧
      (((heldQty doc t + q : ℤ) : ℚ) * p) / doc.portfolio_value
        < rank_asset_limit) :
    (simulate_trade "buy" q t p td doc).doc.total_trades = doc.total_trades + 1 := by
  simp only [simulate_trade]
  rw [if_pos (by refine ⟨?_, hg.1, hg.2.1, hg.2.2⟩; trivial)]

theorem execute_trade_buy_skipped (doc : StratDoc) (q : ℤ) (t : String)
    (p pts td : ℚ) (pq : ℤ) (pv : ℚ)
    (hg : ¬ (doc.amount_cash > train_rank_liquidity_limit ∧ q > 0 ∧
      (((pq + q : ℤ) : ℚ) * p) / pv < train_rank_asset_limit)) :
    execute_trade "buy" q t p doc pts td pq pv = .ok (doc, pts) := by
  simp only [execute_trade]
  rw [if_neg (fun hc => hg ⟨hc.2.1, hc.2.2.1, hc.2.2.2⟩)]
  rw [if_neg (fun hc => absurd hc.1 (by decide))]

theorem execute_trade_buy_executed (doc : StratDoc) (q : ℤ) (t : String)
    (p pts td : ℚ) (pq : ℤ) (pv : ℚ)
    (hg : doc.amount_cash > train_rank_liquidity_limit ∧ q > 0 ∧
      (((pq + q : ℤ) : ℚ) * p) / pv < train_rank_asset_limit) :
    cuBuyExecuted doc (execute_trade "buy" q t p doc pts td pq pv) := by
  simp only [execute_trade]
  rw [if_pos (by refine ⟨?_, hg.1, hg.2.1, hg.2.2⟩; trivial)]
  cases hlk : lookupH doc.holdings t with
  | none =>
    simp only [hlk]
    exact ⟨_, rfl, by simp⟩
  | some h =>
    simp only [hlk]
    exact ⟨_, rfl, by simp⟩

theorem buy_guard_spec :
    (∀ (doc : StratDoc) (q : ℤ) (t : String) (p td : ℚ),
      0 < doc.portfolio_value →
      ((simulate_trade "buy" q t p td doc).doc.total_trades =
          doc.total_trades + 1 ↔
        (doc.amount_cash - (q : ℚ) * p > rank_liquidity_limit ∧ q > 0 ∧
          (((heldQty doc t + q : ℤ) : ℚ) * p) / doc.portfolio_value
            < rank_asset_limit))) ∧
    (simulate_trade "buy" 1 "T" 10000 1 ⟨25000, [], 200000, 0, 0, 0, 0⟩ =
      ⟨⟨25000, [], 200000, 0, 0, 0, 0⟩, 0, none⟩) ∧
    ((simulate_trade "buy" 1 "T" 10000 1
        ⟨25001, [], 200000, 0, 0, 0, 0⟩).doc.amount_cash = 15001 ∧
      (simulate_trade "buy" 1 "T" 10000 1
        ⟨25001, [], 200000, 0, 0, 0, 0⟩).doc.total_trades = 1) ∧
    (∀ (doc : StratDoc) (q : ℤ) (t : String) (p pts td : ℚ) (pq : ℤ) (pv : ℚ),
      0 < pv →
      (cuBuyExecuted doc (execute_trade "buy" q t p doc pts td pq pv) ↔
        (doc.amount_cash > train_rank_liquidity_limit ∧ q > 0 ∧
          (((pq + q : ℤ) : ℚ) * p) / pv < train_rank_asset_limit))) := by
  refine ⟨?_, ?_, ?_, ?_⟩
  · intro doc q t p td _
    constructor
    · intro h
      by_contra hg
      rw [simulate_trade_buy_skipped doc q t p td hg] at h
      simp at h
    · exact simulate_trade_buy_total doc q t p td
  · norm_num +decide [simulate_trade, lookupH, heldQty, rank_liquidity_limit,
      rank_asset_limit]
  · constructor <;>
      norm_num +decide [simulate_trade, lookupH, setH, heldQty,
        rank_liquidity_limit, rank_asset_limit]
  · intro doc q t p pts td pq pv _
    constructor
    · rintro ⟨out, hout, hcnt⟩
      by_contra hg
      rw [execute_trade_buy_skipped doc q t p pts td pq pv hg] at hout
      have hop : out = (doc, pts) := by
        have := hout
        simp only [Except.ok.injEq] at this
        exact this.symm
      rw [hop] at hcnt
      simp at hcnt
    · exact execute_trade_buy_executed doc q t p pts td pq pv

/-- Witness for C4: the amended characterisations applied at concrete
inputs on both sides of the boundary. -/
theorem buy_guard_spec_witness :
    ¬ ((simulate_trade "buy" 1 "T" 10000 1
        ⟨25000, [], 200000, 0, 0, 0, 0⟩).doc.total_trades = 0 + 1) ∧
    cuBuyExecuted ⟨20000, [], 50000, 0, 0, 0, 0⟩
      (execute_trade "buy" 1 "AAPL" 5000 ⟨20000, [], 50000, 0, 0, 0, 0⟩ 0 1 0 50000) := by
  constructor
  · intro hc
    have h := (buy_guard_spec.1 ⟨25000, [], 200000, 0, 0, 0, 0⟩ 1 "T" 10000 1
      (by norm_num)).mp hc
    have h1 := h.1
    norm_num [rank_liquidity_limit] at h1
  · exact (buy_guard_spec.2.2.2 ⟨20000, [], 50000, 0, 0, 0, 0⟩ 1 "AAPL" 5000 0 1 0 50000
      (by norm_num)).mpr
      (by refine ⟨?_, ?_, ?_⟩ <;>
        norm_num [train_rank_liquidity_limit, train_rank_asset_limit])

/-- C5.  On a completed sell at exactly the entry price (entry 100, sell 5
of 10 held at price 100, `time_delta = 1`), `simulate_trade` increments
`neutral_trades` but still `$inc`s the points tally by the first loss tier
`-time_delta * loss_profit_time_d1 = -1 ≠ 0`, because the loss-tier points
are computed in the whole `else` branch; `update_points_and_trades`
(common_utils) on the same sell leaves the points value exactly
unchanged. -/
theorem neutral_sell_penalty :
    simulate_trade "sell" 5 "AAPL" 100 1
        ⟨1000, [("AAPL", ⟨10, 100⟩)], 2000, 0, 0, 0, 0⟩ =
      ⟨⟨1500, [("AAPL", ⟨5, 100⟩)], 2000, 1, 0, 1, 0⟩, -1, none⟩ ∧
    (-1 : ℚ) ≠ 0 ∧
    update_points_and_trades 1 100
        ⟨1000, [("AAPL", ⟨10, 100⟩)], 2000, 0, 0, 0, 0⟩ 0 1 "AAPL" 5 =
      .ok (0, ⟨1000, [("AAPL", ⟨5, 100⟩)], 2000, 1, 0, 1, 0⟩) := by
  refine ⟨?_, by norm_num, ?_⟩
  · norm_num +decide [simulate_trade, lookupH, setH, eraseH, heldQty,
      rank_liquidity_limit, rank_asset_limit, loss_price_change_ratio_d1,
      loss_profit_time_d1, profit_price_change_ratio_d1]
  · norm_num +decide [update_points_and_trades, lookupH, setH, eraseH,
      loss_price_change_ratio_d1, loss_profit_time_d1,
      profit_price_change_ratio_d1]

/-- C6.  In `update_points_and_trades`, a sell whose decrement would push
the holding strictly below zero returns the fatal
"Quantity cannot be negative" error (no state with a negative quantity is
ever returned), while a decrement to exactly zero succeeds and removes the
holding entry. -/
theorem update_points_and_trades_negative_fatal :
    ∀ (doc : StratDoc) (points time_delta r p : ℚ) (t : String) (q : ℤ)
      (h : Holding),
      lookupH doc.holdings t = some h →
      (h.quantity < q →
        update_points_and_trades r p doc points time_delta t q =
          .error "Quantity cannot be negative") ∧
      (h.quantity = q →
        ∃ out, update_points_and_trades r p doc points time_delta t q = .ok out ∧
          lookupH out.2.holdings t = none) := by
  intro doc points td r p t q h hlk
  constructor
  · intro hlt
    have h0 : ¬ (h.quantity - q = 0) := by omega
    have h1 : h.quantity - q < 0 := by omega
    simp only [update_points_and_trades, hlk]
    simp [h0, h1]
  · intro heq
    have h0 : h.quantity - q = 0 := by omega
    simp only [update_points_and_trades, hlk]
    simp only [h0, if_pos]
    exact ⟨_, rfl, lookupH_eraseH_self _ _⟩

/-- Witness for C6 at a concrete over-sell and a concrete exact sell. -/
theorem update_points_and_trades_negative_fatal_witness :
    update_points_and_trades 2 100
        ⟨1000, [("AAPL", ⟨2, 50⟩)], 2000, 0, 0, 0, 0⟩ 0 1 "AAPL" 3 =
      .error "Quantity cannot be negative" := by
  exact (update_points_and_trades_negative_fatal
    ⟨1000, [("AAPL", ⟨2, 50⟩)], 2000, 0, 0, 0, 0⟩ 0 1 2 100 "AAPL" 3 ⟨2, 50⟩
    (by simp [lookupH])).1 (by decide)

/-- C7 counterexample: with 2 shares held, a sell request for 5 is clamped
by `simulate_trade` to the held quantity and executed — cash rises from
1000 to 1200, the holding is deleted, a loss-tier point is deducted, and
the trailing zero-quantity re-check then raises `KeyError` after those
writes persisted.  The claim says such a sell never mutates the ledger. -/
theorem simulate_trade_oversell_counterexample :
    heldQty ⟨1000, [("AAPL", ⟨2, 100⟩)], 2000, 0, 0, 0, 0⟩ "AAPL" = 2 ∧
    simulate_trade "sell" 5 "AAPL" 100 1
        ⟨1000, [("AAPL", ⟨2, 100⟩)], 2000, 0, 0, 0, 0⟩ =
      ⟨⟨1200, [], 2000, 1, 0, 1, 0⟩, -1, some "KeyError"⟩ ∧
    ((1200 : ℚ) ≠ 1000) := by
  refine ⟨by decide, ?_, by norm_num⟩
  norm_num +decide [simulate_trade, lookupH, setH, eraseH, heldQty,
    rank_liquidity_limit, rank_asset_limit, loss_price_change_ratio_d1,
    loss_profit_time_d1, profit_price_change_ratio_d1]

/-- C7 (amended).  `execute_trade` leaves the ledger completely unchanged
on a sell requesting more than the held quantity; `simulate_trade`
(TradeSim/ranking.py) instead clamps such a sell to the held quantity and
executes it: cash grows by `held*price`, the emptied holding is deleted,
and the call then crashes on the trailing re-check with `KeyError`, the
persisted mutation standing. -/
theorem sell_guard_spec :
    (∀ (doc : StratDoc) (q : ℤ) (t : String) (p pts td : ℚ) (pq : ℤ) (pv : ℚ),
      heldQty doc t < q →
      execute_trade "sell" q t p doc pts td pq pv = .ok (doc, pts)) ∧
    (∀ (doc : StratDoc) (q : ℤ) (t : String) (p td : ℚ) (h : Holding),
      lookupH doc.holdings t = some h → 0 < h.quantity → h.quantity < q →
      (simulate_trade "sell" q t p td doc).doc.amount_cash =
          doc.amount_cash + (h.quantity : ℚ) * p ∧
        lookupH (simulate_trade "sell" q t p td doc).doc.holdings t = none ∧
        (simulate_trade "sell" q t p td doc).err = some "KeyError") := by
  constructor
  · intro doc q t p pts td pq pv hlt
    simp only [execute_trade]
    rw [if_neg (fun hc => absurd hc.1 (by decide))]
    rw [if_neg (fun hc => not_le.mpr hlt hc.2)]
  · intro doc q t p td h hlk h0 hlt
    have hmin : min q h.quantity = h.quantity := min_eq_right (le_of_lt hlt)
    have hrem : h.quantity - min q h.quantity = 0 := by rw [hmin]; ring
    simp only [simulate_trade]
    rw [if_neg (fun hc => absurd hc.1 (by decide))]
    simp only [hlk]
    rw [if_pos (by exact ⟨by trivial, h0⟩)]
    refine ⟨?_, ?_, ?_⟩ <;> simp [hmin, hrem, lookupH_eraseH_self]

/-- Witness for C7: the two behaviours at a concrete over-sell. -/
theorem sell_guard_spec_witness :
    execute_trade "sell" 5 "AAPL" 100
        ⟨1000, [("AAPL", ⟨2, 100⟩)], 2000, 0, 0, 0, 0⟩ 0 1 2 2000 =
      .ok (⟨1000, [("AAPL", ⟨2, 100⟩)], 2000, 0, 0, 0, 0⟩, 0) ∧
    (simulate_trade "sell" 5 "AAPL" 100 1
        ⟨1000, [("AAPL", ⟨2, 100⟩)], 2000, 0, 0, 0, 0⟩).err = some "KeyError" := by
  constructor
  · exact sell_guard_spec.1 ⟨1000, [("AAPL", ⟨2, 100⟩)], 2000, 0, 0, 0, 0⟩ 5
      "AAPL" 100 0 1 2 2000 (by decide)
  · exact (sell_guard_spec.2 ⟨1000, [("AAPL", ⟨2, 100⟩)], 2000, 0, 0, 0, 0⟩ 5
      "AAPL" 100 1 ⟨2, 100⟩ (by simp [lookupH]) (by decide) (by decide)).2.2

/-- C8 counterexample: buying 10 more shares at 100 of a ticker held as
10 shares at entry 50, `execute_trade` records entry price 100 — the
latest purchase price — not the quantity-weighted average 75. -/
theorem execute_trade_overwrite_counterexample :
    execute_trade "buy" 10 "AAPL" 100
        ⟨50000, [("AAPL", ⟨10, 50⟩)], 50000, 0, 0, 0, 0⟩ 0 1 10 50000 =
      .ok (⟨49000, [("AAPL", ⟨20, 100⟩)], 50000, 1, 0, 0, 0⟩, 0) ∧
    (100 : ℚ) ≠ (50 * 10 + 100 * 10) / (10 + 10) := by
  constructor
  · norm_num +decide [execute_trade, lookupH, setH, heldQty,
      train_rank_liquidity_limit, train_rank_asset_limit]
  · norm_num

/-- C8 (amended).  On a buy of a ticker already held that passes its
guard, `simulate_trade` records the quantity-weighted average entry price
`(oldPrice*oldQty + price*newQty)/(oldQty+newQty)`, deducts
`newQty*price` from cash and increments `total_trades`; `execute_trade`
deducts cash and counts the trade the same way but overwrites the entry
price with the latest purchase price. -/
theorem buy_average_price_spec :
    (∀ (doc : StratDoc) (q : ℤ) (t : String) (p td : ℚ) (h : Holding),
      lookupH doc.holdings t = some h →
      doc.amount_cash - (q : ℚ) * p > rank_liquidity_limit → q > 0 →
      (((h.quantity + q : ℤ) : ℚ) * p) / doc.portfolio_value < rank_asset_limit →
      simulate_trade "buy" q t p td doc =
        ⟨{ doc with
            holdings := setH doc.holdings t
              ⟨h.quantity + q,
               (h.price * (h.quantity : ℚ) + p * (q : ℚ)) /
                 ((h.quantity + q : ℤ) : ℚ)⟩,
            amount_cash := doc.amount_cash - (q : ℚ) * p,
            total_trades := doc.total_trades + 1 }, 0, none⟩) ∧
    (∀ (doc : StratDoc) (q : ℤ) (t : String) (p pts td : ℚ) (pq : ℤ) (pv : ℚ)
      (h : Holding),
      lookupH doc.holdings t = some h →
      doc.amount_cash > train_rank_liquidity_limit → q > 0 →
      (((pq + q : ℤ) : ℚ) * p) / pv < train_rank_asset_limit →
      execute_trade "buy" q t p doc pts td pq pv =
        .ok ({ doc with
            holdings := setH doc.holdings t ⟨h.quantity + q, p⟩,
            amount_cash := doc.amount_cash - (q : ℚ) * p,
            total_trades := doc.total_trades + 1 }, pts)) := by
  constructor
  · intro doc q t p td h hlk hcash hq hconc
    have hheld : heldQty doc t = h.quantity := by simp [heldQty, hlk]
    simp only [simulate_trade]
    rw [if_pos (by
      refine ⟨?_, hcash, hq, ?_⟩
      · trivial
      · rw [hheld]; exact hconc)]
    simp [hlk]
  · intro doc q t p pts td pq pv h hlk hcash hq hconc
    simp only [execute_trade]
    rw [if_pos (by
      refine ⟨?_, hcash, hq, hconc⟩
      trivial)]
    simp [hlk]

/-- Witness for C8: the two entry-price rules at a concrete repeat buy. -/
theorem buy_average_price_spec_witness :
    simulate_trade "buy" 10 "AAPL" 100 1
        ⟨50000, [("AAPL", ⟨10, 50⟩)], 50000, 0, 0, 0, 0⟩ =
      ⟨⟨49000, [("AAPL", ⟨20, 75⟩)], 50000, 1, 0, 0, 0⟩, 0, none⟩ := by
  have h := buy_average_price_spec.1
    ⟨50000, [("AAPL", ⟨10, 50⟩)], 50000, 0, 0, 0, 0⟩ 10 "AAPL" 100 1 ⟨10, 50⟩
    (by simp [lookupH]) (by norm_num [rank_liquidity_limit]) (by decide)
    (by norm_num [rank_asset_limit])
  rw [h]
  norm_num +decide [setH]

/-! ### Capital-constrained order scheduler
`execute_buy_orders` (src/TradeSim/testing.py lines 109-164); the live
drain loop in src/trading_client.py lines 250-281 has the same
primary-heap preference and cash guard. -/

def train_trade_liquidity_limit : ℚ := 15000

def train_stop_loss : ℚ := 3 / 100

def train_take_profit : ℚ := 5 / 100

/-- A heap entry `(priority_key, quantity, ticker)`. -/
structure Cand where
  priority : ℚ
  quantity : ℤ
  ticker : String
deriving DecidableEq

/-- Python's lexicographic comparison of the pushed tuples. -/
def candLe (a b : Cand) : Prop :=
  toLex (a.priority, toLex (a.quantity, a.ticker)) ≤
    toLex (b.priority, toLex (b.quantity, b.ticker))

instance : DecidableRel candLe := fun a b =>
  inferInstanceAs (Decidable (_ ≤ _))

instance : IsTotal Cand candLe := ⟨fun _ _ => le_total _ _⟩

instance : IsTrans Cand candLe := ⟨fun _ _ _ h h' => le_trans h h'⟩

theorem candLe_iff (a b : Cand) :
    candLe a b ↔ a.priority < b.priority ∨ (a.priority = b.priority ∧
      (a.quantity < b.quantity ∨ (a.quantity = b.quantity ∧
        a.ticker ≤ b.ticker))) := by
  unfold candLe
  rw [Prod.Lex.le_iff, Prod.Lex.le_iff]

/-- Since `heapq` pops entries in ascending tuple order, the pop sequence of
a heap (no pushes happen while draining) is its key-sorted element
list. -/
def sortCands (l : List Cand) : List Cand := l.insertionSort candLe

/-- One entry of `account["trades"]`. -/
structure Trade where
  symbol : String
  quantity : ℤ
  price : ℚ
  action : String
  date : String
deriving DecidableEq

/-- A virtual-account holding with its stop-loss / take-profit levels. -/
structure THolding where
  quantity : ℤ
  price : ℚ
  stop_loss : ℚ
  take_profit : ℚ
deriving DecidableEq

def setTH : List (String × THolding) → String → THolding → List (String × THolding)
  | [], t, h => [(t, h)]
  | (k, h') :: rest, t, h =>
      if k = t then (k, h) :: rest else (k, h') :: setTH rest t h

/-- The virtual account mutated by the drain loop. -/
structure Account where
  cash : ℚ
  holdings : List (String × THolding)
  trades : List Trade
deriving DecidableEq

/-- Process one popped candidate: skip it when the ticker has no close
price for the day (`continue`), otherwise record the buy trade, deduct
cash, and overwrite the holding with stop-loss / take-profit levels. -/
def execCand (prices : String → Option ℚ) (date : String) (c : Cand)
    (acc : Account) : Account :=
  match prices c.ticker with
  | none => acc
  | some p =>
    { cash := acc.cash - (c.quantity : ℚ) * p,
      holdings := setTH acc.holdings c.ticker
        ⟨c.quantity, p, p * (1 - train_stop_loss), p * (1 + train_take_profit)⟩,
      trades := acc.trades ++ [⟨c.ticker, c.quantity, p, "buy", date⟩] }

/-- The `while (buy_heap or suggestion_heap) and cash > limit` loop over
the two pop sequences: prefer the primary heap, fall back to the
suggestion heap only when the primary is empty. -/
def drainLoop (prices : String → Option ℚ) (date : String) :
    List Cand → List Cand → Account → Account
  | b, s, acc =>
    if acc.cash ≤ train_trade_liquidity_limit then acc
    else
      match b with
      | c :: b' => drainLoop prices date b' s (execCand prices date c acc)
      | [] =>
        match s with
        | c :: s' => drainLoop prices date [] s' (execCand prices date c acc)
        | [] => acc
termination_by b s _ => b.length + s.length

/-- Embedding of `execute_buy_orders`: drain both heaps (in `heapq` pop order) against
the account. -/
def execute_buy_orders (prices : String → Option ℚ) (date : String)
    (buy_heap suggestion_heap : List Cand) (account : Account) : Account :=
  drainLoop prices date (sortCands buy_heap) (sortCands suggestion_heap) account

/-- The trade record written for a candidate whose ticker is priced. -/
def candTrade (prices : String → Option ℚ) (date : String) (c : Cand) : Trade :=
  ⟨c.ticker, c.quantity, (prices c.ticker).getD 0, "buy", date⟩

/-- Concrete two-point price table for the scheduler example. -/
def demoPrices : String → Option ℚ :=
  fun t => if t = "A" then some 10 else if t = "B" then some 20 else none

theorem drainLoop_stop (prices : String → Option ℚ) (date : String)
    (b s : List Cand) (acc : Account)
    (h : acc.cash ≤ train_trade_liquidity_limit) :
    drainLoop prices date b s acc = acc := by
  rw [drainLoop.eq_def]
  simp [h]

theorem drainLoop_nil_nil (prices : String → Option ℚ) (date : String)
    (acc : Account) : drainLoop prices date [] [] acc = acc := by
  rw [drainLoop]
  split <;> rfl

theorem drainLoop_decompose (prices : String → Option ℚ) (date : String)
    (b s : List Cand) (acc : Account) :
    drainLoop prices date b s acc =
      drainLoop prices date [] s (drainLoop prices date b [] acc) := by
  induction b generalizing acc with
  | nil => rw [drainLoop_nil_nil]
  | cons c b' ih =>
    by_cases hc : acc.cash ≤ train_trade_liquidity_limit
    · rw [drainLoop_stop prices date _ _ acc hc,
        drainLoop_stop prices date _ _ acc hc,
        drainLoop_stop prices date _ _ acc hc]
    · conv =>
        lhs
        rw [drainLoop]
      conv =>
        rhs
        rw [drainLoop]
      simp only [hc, if_false]
      exact ih (execCand prices date c acc)

theorem drainLoop_primary_trades (prices : String → Option ℚ) (date : String)
    (b : List Cand) (acc : Account)
    (hp : ∀ c ∈ b, (prices c.ticker).isSome = true) :
    ∃ k, (drainLoop prices date b [] acc).trades =
      acc.trades ++ (b.take k).map (candTrade prices date) := by
  induction b generalizing acc with
  | nil => exact ⟨0, by rw [drainLoop_nil_nil]; simp⟩
  | cons c b' ih =>
    by_cases hc : acc.cash ≤ train_trade_liquidity_limit
    · exact ⟨0, by rw [drainLoop_stop prices date _ _ acc hc]; simp⟩
    · rw [drainLoop.eq_def]
      simp only [hc, if_false]
      obtain ⟨p, hpc⟩ := Option.isSome_iff_exists.mp (hp c (by simp))
      obtain ⟨k', hk'⟩ := ih (execCand prices date c acc)
        (fun d hd => hp d (by simp [hd]))
      refine ⟨k' + 1, ?_⟩
      rw [hk']
      simp [execCand, hpc, candTrade]

/-- C9.  The drain loop executes candidates only while a heap is
non-empty and cash strictly exceeds the liquidity reserve; it always
drains the primary buy heap first and touches the suggestion heap only
once the primary is empty; within a heap candidates run in ascending
priority-key (`heapq` tuple) order — with every ticker priced, the trades
appended by a primary-only drain are exactly an initial segment of the
key-sorted candidate list — and in particular a key `-5` candidate
executes before a key `-3` candidate. -/
theorem execute_buy_orders_spec :
    (∀ (prices : String → Option ℚ) (date : String) (b s : List Cand)
        (acc : Account),
      acc.cash ≤ train_trade_liquidity_limit →
      execute_buy_orders prices date b s acc = acc) ∧
    (∀ (prices : String → Option ℚ) (date : String) (b s : List Cand)
        (acc : Account),
      execute_buy_orders prices date b s acc =
        execute_buy_orders prices date [] s
          (execute_buy_orders prices date b [] acc)) ∧
    (∀ (prices : String → Option ℚ) (date : String) (b : List Cand)
        (acc : Account),
      (∀ c ∈ b, (prices c.ticker).isSome = true) →
      ∃ k, (execute_buy_orders prices date b [] acc).trades =
        acc.trades ++ ((sortCands b).take k).map (candTrade prices date)) ∧
    (∀ b : List Cand, List.Pairwise candLe (sortCands b)) ∧
    (execute_buy_orders demoPrices "2024-01-02"
        [⟨-3, 1, "A"⟩, ⟨-5, 1, "B"⟩] [] ⟨100000, [], []⟩).trades =
      [⟨"B", 1, 20, "buy", "2024-01-02"⟩, ⟨"A", 1, 10, "buy", "2024-01-02"⟩] := by
  refine ⟨?_, ?_, ?_, ?_, ?_⟩
  · intro prices date b s acc h
    exact drainLoop_stop prices date _ _ acc h
  · intro prices date b s acc
    unfold execute_buy_orders
    rw [show sortCands [] = [] from rfl]
    exact drainLoop_decompose prices date (sortCands b) (sortCands s) acc
  · intro prices date b acc hp
    unfold execute_buy_orders
    rw [show sortCands [] = [] from rfl]
    exact drainLoop_primary_trades prices date (sortCands b) acc
      (fun c hc => hp c ((List.perm_insertionSort candLe b).mem_iff.mp hc))
  · intro b
    exact List.sorted_insertionSort candLe b
  · norm_num +decide [execute_buy_orders, sortCands, List.insertionSort,
      List.orderedInsert, candLe_iff, drainLoop, execCand, demoPrices,
      train_trade_liquidity_limit, train_stop_loss, train_take_profit, setTH]

/-- Witness for C9: the drain guard and the sorted-trades decomposition at
concrete inputs. -/
theorem execute_buy_orders_spec_witness :
    execute_buy_orders demoPrices "2024-01-02" [⟨-3, 1, "A"⟩] []
        ⟨10, [], []⟩ = ⟨10, [], []⟩ ∧
    (execute_buy_orders demoPrices "2024-01-02"
        [⟨-3, 1, "A"⟩, ⟨-5, 1, "B"⟩] [] ⟨100000, [], []⟩).trades =
      [⟨"B", 1, 20, "buy", "2024-01-02"⟩, ⟨"A", 1, 10, "buy", "2024-01-02"⟩] := by
  constructor
  · exact execute_buy_orders_spec.1 demoPrices "2024-01-02" [⟨-3, 1, "A"⟩] []
      ⟨10, [], []⟩ (by norm_num [train_trade_liquidity_limit])
  · exact execute_buy_orders_spec.2.2.2.2

end AmpyFin
